import Mathlib

/-!
Verification development for the TinyShell (`tsh.c`) job-control kernel.

The definitions below are a shallow embedding of the job table, the
signal handlers and the `fg`/`bg` builtin executors of `src/tsh.c`.
C machine integers (`pid_t`, `int`) are modelled as `Int`; the fixed
global array `job_list[MAXJOBS]` is modelled as a `List Job` (the
initial table has length `MAXJOBS = 16` and every operation preserves
the length); text emitted through `sio_puts`/`sio_putl` is modelled as
a `String` result; `kill(target, sig)` calls are collected in a list of
`(target, sig)` pairs.  A C function that can dereference a null
pointer is modelled with an `Option` result where `none` marks the
dereference of the null pointer.
-/

/-- tsh.c line 32: `#define MAXJOBS 16` — max jobs at any point in time. -/
def MAXJOBS : Int := 16

/-- tsh.c line 33: `#define MAXJID 1<<16` — max job ID (never read by the code). -/
def MAXJID : Int := 65536

/-- Job states, tsh.c lines 36-39 (`UNDEF`, `FG`, `BG`, `ST`). -/
inductive JState
  | UNDEF
  | FG
  | BG
  | ST
deriving DecidableEq, Repr

/-- `struct job_t`, tsh.c lines 69-74. -/
structure Job where
  pid : Int
  jid : Int
  state : JState
  cmdline : String
deriving DecidableEq, Repr

/-- `clearjob`, tsh.c lines 852-858: the contents of a cleared slot. -/
def emptyJob : Job := ⟨0, 0, .UNDEF, ""⟩

/-- The job table: `job_list` (tsh.c line 75) plus the global `nextjid`
counter (tsh.c line 66). -/
structure JobTable where
  slots : List Job
  nextjid : Int
deriving DecidableEq, Repr

/-- `initjobs`, tsh.c lines 861-867: all `MAXJOBS` slots cleared,
`nextjid` starts at 1 (line 66). -/
def initTable : JobTable := ⟨List.replicate 16 emptyJob, 1⟩

/-- Standard Linux signal numbers used by the shell. -/
def SIGINT : Int := 2

def SIGCONT : Int := 18

def SIGTSTP : Int := 20

/-- `maxjid`, tsh.c lines 870-879: largest allocated job ID
(`max` over every slot's `jid`, starting from 0). -/
def maxjid (slots : List Job) : Int :=
  slots.foldl (fun m j => max m j.jid) 0

/-- Decimal text written by `sio_putl` (tsh.c lines 1202-1208, via
`sio_ltoa` with base 10); the shell only prints nonnegative values. -/
def sio_putl_str (v : Int) : String := toString v

/-- Core loop of `addjob`, tsh.c lines 890-906: find the first slot with
`pid == 0`, fill it with the new job, assign `jid = nextjid++` and wrap
`nextjid` back to 1 once it exceeds `MAXJOBS`.  Returns the updated
slots, the updated `nextjid` and whether a free slot was found. -/
def addjobSlots (slots : List Job) (pid : Int) (st : JState) (cmd : String)
    (nj : Int) : List Job × Int × Bool :=
  match slots with
  | [] => ([], nj, false)
  | j :: rest =>
    if j.pid = 0 then
      (⟨pid, nj, st, cmd⟩ :: rest, if nj + 1 > MAXJOBS then 1 else nj + 1, true)
    else
      let r := addjobSlots rest pid st cmd nj
      (j :: r.1, r.2.1, r.2.2)

/-- `addjob`, tsh.c lines 882-909.  Result: updated table, the C return
value (`1` = added, `0` = failed) and the diagnostic text printed when
the table is full (line 907). -/
def addjob (t : JobTable) (pid : Int) (st : JState) (cmd : String) :
    JobTable × Bool × String :=
  if pid < 1 then (t, false, "")
  else
    let r := addjobSlots t.slots pid st cmd t.nextjid
    (⟨r.1, r.2.1⟩, r.2.2,
      if r.2.2 then "" else "Tried to create too many jobs\n")

/-- Core loop of `deletejob`, tsh.c lines 920-926: clear the first slot
whose `pid` matches. -/
def deletejobSlots (slots : List Job) (pid : Int) : List Job × Bool :=
  match slots with
  | [] => ([], false)
  | j :: rest =>
    if j.pid = pid then (emptyJob :: rest, true)
    else
      let r := deletejobSlots rest pid
      (j :: r.1, r.2)

/-- `deletejob`, tsh.c lines 912-928: on a hit the slot is cleared and
`nextjid` is recomputed as `maxjid(job_list) + 1` over the table after
the clearing (line 923). -/
def deletejob (t : JobTable) (pid : Int) : JobTable × Bool :=
  if pid < 1 then (t, false)
  else
    let r := deletejobSlots t.slots pid
    if r.2 then (⟨r.1, maxjid r.1 + 1⟩, true)
    else (⟨r.1, t.nextjid⟩, false)

/-- `fgpid`, tsh.c lines 931-939: `pid` of the first slot whose state is
`FG`, `0` if there is none. -/
def fgpid (slots : List Job) : Int :=
  match slots with
  | [] => 0
  | j :: rest => if j.state = .FG then j.pid else fgpid rest

/-- First slot whose `pid` matches (the pointer returned by the scan in
`getjobpid`, tsh.c lines 948-951). -/
def findPid (slots : List Job) (pid : Int) : Option Job :=
  match slots with
  | [] => none
  | j :: rest => if j.pid = pid then some j else findPid rest pid

/-- `getjobpid`, tsh.c lines 942-952 (`NULL` for `pid < 1`). -/
def getjobpid (slots : List Job) (pid : Int) : Option Job :=
  if pid < 1 then none else findPid slots pid

/-- First slot whose `jid` matches (the scan in `getjobjid`,
tsh.c lines 961-964). -/
def findJid (slots : List Job) (jid : Int) : Option Job :=
  match slots with
  | [] => none
  | j :: rest => if j.jid = jid then some j else findJid rest jid

/-- `getjobjid`, tsh.c lines 955-965 (`NULL` for `jid < 1`). -/
def getjobjid (slots : List Job) (jid : Int) : Option Job :=
  if jid < 1 then none else findJid slots jid

/-- `pid2jid`, tsh.c lines 968-980. -/
def pid2jid (slots : List Job) (pid : Int) : Int :=
  if pid < 1 then 0
  else
    match findPid slots pid with
    | some j => j.jid
    | none => 0

/-- In-place state write through the pointer obtained from `getjobpid`
(`job->state = ...`): update the first slot whose `pid` matches. -/
def setStateByPid (slots : List Job) (pid : Int) (st : JState) : List Job :=
  match slots with
  | [] => []
  | j :: rest =>
    if j.pid = pid then { j with state := st } :: rest
    else j :: setStateByPid rest pid st

/-- In-place state write through the pointer obtained from `getjobjid`:
update the first slot whose `jid` matches. -/
def setStateByJid (slots : List Job) (jid : Int) (st : JState) : List Job :=
  match slots with
  | [] => []
  | j :: rest =>
    if j.jid = jid then { j with state := st } :: rest
    else j :: setStateByJid rest jid st

/-- `true` when some slot carries the given `pid`. -/
def containsPid (slots : List Job) (pid : Int) : Bool :=
  slots.any (fun j => j.pid == pid)

/-- C `atoi` on a token: skip leading white space, optional sign, then
leading decimal digits (0 when no digit follows). -/
def atoiList : List Char → Int
  | cs =>
    let cs := cs.dropWhile (fun c => c == ' ' || c == '\t' || c == '\n' ||
      c == '\r' || c == '\x0b' || c == '\x0c')
    match cs with
    | '-' :: rest => - atoiDigits rest 0
    | '+' :: rest => atoiDigits rest 0
    | rest => atoiDigits rest 0
where
  atoiDigits : List Char → Int → Int
    | [], acc => acc
    | c :: cs, acc =>
      if c.isDigit then atoiDigits cs (acc * 10 + ((c.toNat : Int) - 48))
      else acc

def atoi (s : String) : Int := atoiList s.toList

/-- The reaped wait status, classified the way `sigchld_handler` does
with `WIFSTOPPED` / `WIFSIGNALED` / `WIFEXITED` (tsh.c lines 704, 729,
742); the payload is `WSTOPSIG` / `WTERMSIG` / the exit code. -/
inductive WStatus
  | stopped (sig : Int)
  | signaled (sig : Int)
  | exited (code : Int)
deriving DecidableEq, Repr

/-- One iteration of the reaping loop of `sigchld_handler`,
tsh.c lines 699-748, for a reaped `(pid, status)` pair.
`job = getjobpid(job_list, pid)` (line 702) can be `NULL`; the stopped
branch then dereferences it at `job->state` (line 717) and the
signaled branch at `job->jid` (line 733): those dereferences of the
null pointer are modelled as the result `none`.  Otherwise the result
carries the updated table and the text printed by the branch. -/
def sigchld_event (t : JobTable) (pid : Int) (status : WStatus) :
    Option (JobTable × String) :=
  match status with
  | .stopped sig =>
    match getjobpid t.slots pid with
    | none => none
    | some job =>
      if job.state ≠ .ST then
        some (⟨setStateByPid t.slots pid .ST, t.nextjid⟩,
          "Job [" ++ sio_putl_str job.jid ++ "] (" ++ sio_putl_str job.pid ++
            ") stopped by signal " ++ sio_putl_str sig ++ "\n")
      else
        some (t, "")
  | .signaled sig =>
    match getjobpid t.slots pid with
    | none => none
    | some job =>
      some ((deletejob t pid).1,
        "Job [" ++ sio_putl_str job.jid ++ "] (" ++ sio_putl_str job.pid ++
          ") terminated by signal " ++ sio_putl_str sig ++ "\n")
  | .exited _ => some ((deletejob t pid).1, "")

/-- `sigint_handler`, tsh.c lines 760-783: read `fgpid(job_list)`; when
nonzero, `kill(-pid, sig)`; the job table is only read.  Result: the
table after the handler and the kill calls it issued. -/
def sigint_handler (t : JobTable) (sig : Int) : JobTable × List (Int × Int) :=
  let pid := fgpid t.slots
  if pid ≠ 0 then (t, [(-pid, sig)]) else (t, [])

/-- `sigtstp_handler`, tsh.c lines 790-829: read `fgpid`; when nonzero,
print the stop notification (lines 812-818), set the foreground job's
state to `ST` through the `getjobpid` pointer (line 819) and
`kill(-pid, sig)` (line 821).  Result: updated table, printed text,
kill calls. -/
def sigtstp_handler (t : JobTable) (sig : Int) :
    JobTable × String × List (Int × Int) :=
  let pid := fgpid t.slots
  let jid := pid2jid t.slots pid
  if pid ≠ 0 then
    (⟨setStateByPid t.slots pid .ST, t.nextjid⟩,
     "Job [" ++ sio_putl_str jid ++ "] (" ++ sio_putl_str pid ++
       ") stopped by signal " ++ sio_putl_str sig ++ "\n",
     [(-pid, sig)])
  else (t, "", [])

/-- Outcome of `execute_fg` / `execute_bg`.  `crash` marks the
dereference of a null job pointer; `err` carries the diagnostic printed
before the early `return`; `ok` carries the table after the state
write, the text printed on success and the kill calls issued.  The
foreground wait loop of `execute_fg` (tsh.c lines 445-446) is modelled
by the `waitAny` mode of the transition system below. -/
inductive BuiltinResult
  | crash
  | err (msg : String)
  | ok (t : JobTable) (out : String) (kills : List (Int × Int))
deriving DecidableEq, Repr

/-- `execute_fg`, tsh.c lines 383-449, applied to `argc` and the two
argument strings.  In the `%jid` branch the code reads
`pid = target_job->pid` (line 408) before the `NULL` check (line 409),
so a well-formed but absent job id dereferences the null pointer:
modelled as `.crash` (which also makes the message of the dead check on
line 409 unreachable).  The raw-pid branch checks the pointer before
any dereference. -/
def execute_fg (t : JobTable) (argc : Nat) (argv0 arg : String) :
    BuiltinResult :=
  if argc ≠ 2 then
    .err (argv0 ++ " please input one and only one ID argument\n")
  else
    match arg.toList with
    | '%' :: rest =>
      let jid := atoiList rest
      if jid = 0 then
        .err (argv0 ++ ": argument must be a nonzero %jobid\n")
      else
        match getjobjid t.slots jid with
        | none => .crash
        | some job =>
          if job.state = .UNDEF then
            .err "error: trying to fg a process not exist\n"
          else
            .ok ⟨setStateByJid t.slots jid .FG, t.nextjid⟩ ""
              (if job.state = .ST then [(-job.pid, SIGCONT)] else [])
    | _ =>
      let pid := atoi arg
      if pid = 0 then
        .err (argv0 ++ ": argument must be a nonzero PID\n")
      else
        match getjobpid t.slots pid with
        | none =>
          .err ("(" ++ sio_putl_str pid ++
            "): process with this pid do not exist\n")
        | some job =>
          if job.state = .UNDEF then
            .err "error: trying to fg a process not exist\n"
          else
            .ok ⟨setStateByPid t.slots pid .FG, t.nextjid⟩ ""
              (if job.state = .ST then [(-pid, SIGCONT)] else [])

/-- `execute_bg`, tsh.c lines 452-523.  The `%jid` branch has the same
dereference-before-check as `execute_fg` (lines 476-477).  The check on
line 505 compares the (here non-null) pointer itself against `UNDEF`
(0), so it never fires and is omitted.  On success the state becomes
`BG` and the `[jid] (pid) cmdline` notification is printed from the
job's fields (lines 514-520). -/
def execute_bg (t : JobTable) (argc : Nat) (argv0 arg : String) :
    BuiltinResult :=
  if argc ≠ 2 then
    .err (argv0 ++ " please input one and only one ID argument\n")
  else
    match arg.toList with
    | '%' :: rest =>
      let jid := atoiList rest
      if jid = 0 then
        .err (argv0 ++ ": argument must be a %jobid\n")
      else
        match getjobjid t.slots jid with
        | none => .crash
        | some job =>
          .ok ⟨setStateByJid t.slots jid .BG, t.nextjid⟩
            ("[" ++ sio_putl_str job.jid ++ "] (" ++ sio_putl_str job.pid ++
              ") " ++ job.cmdline ++ "\n")
            (if job.state = .ST then [(-job.pid, SIGCONT)] else [])
    | _ =>
      let pid := atoi arg
      if pid = 0 then
        .err (argv0 ++ ": argument must be a PID\n")
      else
        match getjobpid t.slots pid with
        | none =>
          .err ("(" ++ sio_putl_str pid ++
            "): process with this pid do not exist\n")
        | some job =>
          .ok ⟨setStateByPid t.slots pid .BG, t.nextjid⟩
            ("[" ++ sio_putl_str job.jid ++ "] (" ++ sio_putl_str job.pid ++
              ") " ++ job.cmdline ++ "\n")
            (if job.state = .ST then [(-pid, SIGCONT)] else [])

/-- Text printed by the forked child when `execve` fails,
tsh.c lines 284-288: `sio_puts(tok.argv[0])` followed by
`sio_puts("s: Command not found.\n")` (note the stray `s` in the
literal), after which the child runs `exit(0)` (line 289). -/
def execFailOutput (argv0 : String) : String :=
  argv0 ++ "s: Command not found.\n"

/-- Exit status of the child after a failed `execve`, tsh.c line 289. -/
def execFailStatus : Int := 0

/-- Where the main flow of control stands.  `prompt`: the read/eval loop
is between commands (tsh.c lines 194-218).  `waitFG pid`: `eval` spawned
a foreground child and sits in `while (pid == fgpid(job_list))
Sigsuspend(&prev)` (lines 297-298).  `waitAny`: `execute_fg` sits in
`while (fgpid(job_list)) Sigsuspend(pprev)` (lines 445-446). -/
inductive Mode
  | prompt
  | waitFG (pid : Int)
  | waitAny
deriving DecidableEq, Repr

/-- The shared state of the shell: the job table plus the main flow's
position. -/
structure ShellState where
  table : JobTable
  mode : Mode
deriving DecidableEq, Repr

/-- Atomic transitions of the job-control kernel.  The builtins and
each iteration of a handler's reaping loop run as one transaction (the
handlers block every signal around their table accesses, tsh.c lines
701, 769, 802); handler transitions can interleave at any point of the
main flow, in particular while `eval` or `execute_fg` sit in their
suspend loops. -/
inductive Step : ShellState → ShellState → Prop
  | spawnFG (t : JobTable) (pid : Int) (cmd : String) :
      Step ⟨t, .prompt⟩ ⟨(addjob t pid .FG cmd).1, .waitFG pid⟩
  | spawnBG (t : JobTable) (pid : Int) (cmd : String) :
      Step ⟨t, .prompt⟩ ⟨(addjob t pid .BG cmd).1, .prompt⟩
  | fgBuiltin (t : JobTable) (argc : Nat) (a0 arg : String)
      (t' : JobTable) (out : String) (kills : List (Int × Int)) :
      execute_fg t argc a0 arg = .ok t' out kills →
      Step ⟨t, .prompt⟩ ⟨t', .waitAny⟩
  | bgBuiltin (t : JobTable) (argc : Nat) (a0 arg : String)
      (t' : JobTable) (out : String) (kills : List (Int × Int)) :
      execute_bg t argc a0 arg = .ok t' out kills →
      Step ⟨t, .prompt⟩ ⟨t', .prompt⟩
  | wakeFG (t : JobTable) (pid : Int) :
      fgpid t.slots ≠ pid →
      Step ⟨t, .waitFG pid⟩ ⟨t, .prompt⟩
  | wakeAny (t : JobTable) :
      fgpid t.slots = 0 →
      Step ⟨t, .waitAny⟩ ⟨t, .prompt⟩
  | chld (t : JobTable) (m : Mode) (pid : Int) (status : WStatus)
      (t' : JobTable) (out : String) :
      sigchld_event t pid status = some (t', out) →
      Step ⟨t, m⟩ ⟨t', m⟩
  | tstp (t : JobTable) (m : Mode) (sig : Int) :
      Step ⟨t, m⟩ ⟨(sigtstp_handler t sig).1, m⟩
  | intr (t : JobTable) (m : Mode) (sig : Int) :
      Step ⟨t, m⟩ ⟨(sigint_handler t sig).1, m⟩

/-- States reachable from the freshly initialized shell. -/
inductive Reachable : ShellState → Prop
  | init : Reachable ⟨initTable, .prompt⟩
  | step {s s' : ShellState} : Reachable s → Step s s' → Reachable s'

/-- Number of slots whose state is `FG`. -/
def fgCount (slots : List Job) : Nat :=
  slots.countP (fun j => j.state == .FG)

/-- Background spawn of one job (a `Step.spawnBG` transition). -/
def addBGpid (t : JobTable) (pid : Int) : JobTable :=
  (addjob t pid .BG "sleep 100 &").1

/-- Tables reached by registering 1..15 and then 16 background jobs
with pids 1..16 from the initial table. -/
def tFill : Nat → JobTable
  | 0 => initTable
  | n + 1 => addBGpid (tFill n) (n + 1)

/-! ### Lemmas about the job-table operations -/

theorem le_foldl_max (slots : List Job) (acc : Int) :
    acc ≤ slots.foldl (fun m j => max m j.jid) acc := by
  induction slots generalizing acc with
  | nil => simp
  | cons j rest ih =>
    simpa using le_trans (le_max_left acc j.jid) (ih (max acc j.jid))

theorem jid_le_foldl_max {j : Job} {slots : List Job} (acc : Int)
    (h : j ∈ slots) : j.jid ≤ slots.foldl (fun m j => max m j.jid) acc := by
  induction slots generalizing acc with
  | nil => cases h
  | cons k rest ih =>
    rcases List.mem_cons.mp h with rfl | hmem
    · simpa using le_trans (le_max_right acc j.jid) (le_foldl_max rest _)
    · simpa using ih _ hmem

theorem jid_le_maxjid {j : Job} {slots : List Job} (h : j ∈ slots) :
    j.jid ≤ maxjid slots :=
  jid_le_foldl_max 0 h

theorem deletejobSlots_not_found {slots : List Job} {pid : Int}
    (h : containsPid slots pid = false) :
    deletejobSlots slots pid = (slots, false) := by
  induction slots with
  | nil => rfl
  | cons j rest ih =>
    simp only [containsPid, List.any_cons, Bool.or_eq_false_iff, beq_eq_false_iff_ne,
      ne_eq] at h
    simp only [deletejobSlots, if_neg h.1, ih h.2]

theorem deletejobSlots_found {slots : List Job} {pid : Int}
    (h : containsPid slots pid = true) :
    ∃ i j, slots.get? i = some j ∧ j.pid = pid ∧
      deletejobSlots slots pid = (slots.set i emptyJob, true) := by
  induction slots with
  | nil => simp [containsPid] at h
  | cons k rest ih =>
    by_cases hk : k.pid = pid
    · exact ⟨0, k, rfl, hk, by simp [deletejobSlots, hk]⟩
    · simp only [containsPid, List.any_cons, Bool.or_eq_true, beq_iff_eq] at h
      rcases h with h | h
      · exact absurd h hk
      · obtain ⟨i, j, hget, hpid, heq⟩ := ih h
        exact ⟨i + 1, j, hget, hpid, by simp [deletejobSlots, hk, heq]⟩

theorem mem_deletejobSlots {slots : List Job} {pid : Int} {j' : Job}
    (h : j' ∈ (deletejobSlots slots pid).1) : j' ∈ slots ∨ j' = emptyJob := by
  induction slots with
  | nil => cases h
  | cons k rest ih =>
    simp only [deletejobSlots] at h
    by_cases hk : k.pid = pid
    · rw [if_pos hk] at h
      rcases List.mem_cons.mp h with rfl | hmem
      · exact Or.inr rfl
      · exact Or.inl (List.mem_cons_of_mem _ hmem)
    · rw [if_neg hk] at h
      rcases List.mem_cons.mp h with rfl | hmem
      · exact Or.inl (List.mem_cons_self _ _)
      · rcases ih hmem with hm | hm
        · exact Or.inl (List.mem_cons_of_mem _ hm)
        · exact Or.inr hm

theorem fgCount_deletejobSlots_le (slots : List Job) (pid : Int) :
    fgCount (deletejobSlots slots pid).1 ≤ fgCount slots := by
  induction slots with
  | nil => simp [deletejobSlots]
  | cons k rest ih =>
    simp only [deletejobSlots]
    by_cases hk : k.pid = pid
    · simp only [if_pos hk, fgCount, List.countP_cons]
      have : (emptyJob.state == JState.FG) = false := rfl
      simp [this]
    · simp only [if_neg hk, fgCount, List.countP_cons] at *
      omega

theorem mem_addjobSlots {slots : List Job} {pid nj : Int} {st : JState}
    {cmd : String} {j' : Job}
    (h : j' ∈ (addjobSlots slots pid st cmd nj).1) :
    j' ∈ slots ∨ j' = ⟨pid, nj, st, cmd⟩ := by
  induction slots with
  | nil => cases h
  | cons k rest ih =>
    simp only [addjobSlots] at h
    by_cases hk : k.pid = 0
    · rw [if_pos hk] at h
      rcases List.mem_cons.mp h with rfl | hmem
      · exact Or.inr rfl
      · exact Or.inl (List.mem_cons_of_mem _ hmem)
    · rw [if_neg hk] at h
      rcases List.mem_cons.mp h with rfl | hmem
      · exact Or.inl (List.mem_cons_self _ _)
      · rcases ih hmem with hm | hm
        · exact Or.inl (List.mem_cons_of_mem _ hm)
        · exact Or.inr hm

theorem addjobSlots_full {slots : List Job} {pid nj : Int} {st : JState}
    {cmd : String} (h : ∀ j ∈ slots, j.pid ≠ 0) :
    addjobSlots slots pid st cmd nj = (slots, nj, false) := by
  induction slots with
  | nil => rfl
  | cons k rest ih =>
    have hk : k.pid ≠ 0 := h k (List.mem_cons_self _ _)
    simp only [addjobSlots, if_neg hk,
      ih (fun j hj => h j (List.mem_cons_of_mem _ hj))]

theorem addjobSlots_free {slots : List Job} (pid nj : Int) (st : JState)
    (cmd : String) (h : containsPid slots 0 = true) :
    (addjobSlots slots pid st cmd nj).2.1 =
        (if nj + 1 > MAXJOBS then 1 else nj + 1)
    ∧ (addjobSlots slots pid st cmd nj).2.2 = true := by
  induction slots with
  | nil => simp [containsPid] at h
  | cons k rest ih =>
    by_cases hk : k.pid = 0
    · simp [addjobSlots, hk]
    · simp only [containsPid, List.any_cons, Bool.or_eq_true, beq_iff_eq] at h
      rcases h with h | h
      · exact absurd h hk
      · simpa [addjobSlots, hk] using ih h

theorem fgCount_addjobSlots {slots : List Job} (pid nj : Int) (st : JState)
    (cmd : String) (h5 : ∀ j ∈ slots, j.pid = 0 → j.state = .UNDEF) :
    fgCount (addjobSlots slots pid st cmd nj).1 ≤
      fgCount slots + (if st = .FG then 1 else 0) := by
  induction slots with
  | nil =>
    simp only [addjobSlots, fgCount, List.countP_nil]
    split <;> omega
  | cons k rest ih =>
    simp only [addjobSlots]
    by_cases hk : k.pid = 0
    · have hst : k.state = .UNDEF := h5 k (List.mem_cons_self _ _) hk
      rw [if_pos hk]
      simp only [fgCount, List.countP_cons, hst]
      have : (JState.UNDEF == JState.FG) = false := rfl
      rw [this]
      by_cases hFG : st = .FG <;> simp [hFG]
    · rw [if_neg hk]
      have ih' := ih (fun j hj => h5 j (List.mem_cons_of_mem _ hj))
      simp only [fgCount, List.countP_cons] at *
      omega

theorem mem_setStateByPid {slots : List Job} {pid : Int} {st : JState}
    {j' : Job} (h : j' ∈ setStateByPid slots pid st) :
    j' ∈ slots ∨ ∃ j ∈ slots, j.pid = pid ∧ j' = { j with state := st } := by
  induction slots with
  | nil => cases h
  | cons k rest ih =>
    simp only [setStateByPid] at h
    by_cases hk : k.pid = pid
    · rw [if_pos hk] at h
      rcases List.mem_cons.mp h with rfl | hmem
      · exact Or.inr ⟨k, List.mem_cons_self _ _, hk, rfl⟩
      · exact Or.inl (List.mem_cons_of_mem _ hmem)
    · rw [if_neg hk] at h
      rcases List.mem_cons.mp h with rfl | hmem
      · exact Or.inl (List.mem_cons_self _ _)
      · rcases ih hmem with hm | ⟨j, hj, hjp, hje⟩
        · exact Or.inl (List.mem_cons_of_mem _ hm)
        · exact Or.inr ⟨j, List.mem_cons_of_mem _ hj, hjp, hje⟩

theorem mem_setStateByJid {slots : List Job} {jid : Int} {st : JState}
    {j' : Job} (h : j' ∈ setStateByJid slots jid st) :
    j' ∈ slots ∨ ∃ j ∈ slots, j.jid = jid ∧ j' = { j with state := st } := by
  induction slots with
  | nil => cases h
  | cons k rest ih =>
    simp only [setStateByJid] at h
    by_cases hk : k.jid = jid
    · rw [if_pos hk] at h
      rcases List.mem_cons.mp h with rfl | hmem
      · exact Or.inr ⟨k, List.mem_cons_self _ _, hk, rfl⟩
      · exact Or.inl (List.mem_cons_of_mem _ hmem)
    · rw [if_neg hk] at h
      rcases List.mem_cons.mp h with rfl | hmem
      · exact Or.inl (List.mem_cons_self _ _)
      · rcases ih hmem with hm | ⟨j, hj, hjp, hje⟩
        · exact Or.inl (List.mem_cons_of_mem _ hm)
        · exact Or.inr ⟨j, List.mem_cons_of_mem _ hj, hjp, hje⟩

theorem fgCount_setStateByPid_le (slots : List Job) (pid : Int) (st : JState) :
    fgCount (setStateByPid slots pid st) ≤
      fgCount slots + (if st = .FG then 1 else 0) := by
  induction slots with
  | nil =>
    simp only [setStateByPid, fgCount, List.countP_nil]
    split <;> omega
  | cons k rest ih =>
    simp only [setStateByPid]
    by_cases hk : k.pid = pid
    · rw [if_pos hk]
      simp only [fgCount, List.countP_cons]
      rcases hst : st with _ | _ | _ | _ <;>
        rcases hks : k.state with _ | _ | _ | _ <;> simp_all
    · rw [if_neg hk]
      simp only [fgCount, List.countP_cons] at *
      omega

theorem fgCount_setStateByJid_le (slots : List Job) (jid : Int) (st : JState) :
    fgCount (setStateByJid slots jid st) ≤
      fgCount slots + (if st = .FG then 1 else 0) := by
  induction slots with
  | nil =>
    simp only [setStateByJid, fgCount, List.countP_nil]
    split <;> omega
  | cons k rest ih =>
    simp only [setStateByJid]
    by_cases hk : k.jid = jid
    · rw [if_pos hk]
      simp only [fgCount, List.countP_cons]
      rcases hst : st with _ | _ | _ | _ <;>
        rcases hks : k.state with _ | _ | _ | _ <;> simp_all
    · rw [if_neg hk]
      simp only [fgCount, List.countP_cons] at *
      omega

theorem findPid_pid {slots : List Job} {pid : Int} {j : Job}
    (h : findPid slots pid = some j) : j.pid = pid := by
  induction slots with
  | nil => cases h
  | cons k rest ih =>
    simp only [findPid] at h
    by_cases hk : k.pid = pid
    · rw [if_pos hk] at h; cases h; exact hk
    · rw [if_neg hk] at h; exact ih h

theorem findPid_mem {slots : List Job} {pid : Int} {j : Job}
    (h : findPid slots pid = some j) : j ∈ slots := by
  induction slots with
  | nil => cases h
  | cons k rest ih =>
    simp only [findPid] at h
    by_cases hk : k.pid = pid
    · rw [if_pos hk] at h; cases h; exact List.mem_cons_self _ _
    · rw [if_neg hk] at h; exact List.mem_cons_of_mem _ (ih h)

theorem findJid_jid {slots : List Job} {jid : Int} {j : Job}
    (h : findJid slots jid = some j) : j.jid = jid := by
  induction slots with
  | nil => cases h
  | cons k rest ih =>
    simp only [findJid] at h
    by_cases hk : k.jid = jid
    · rw [if_pos hk] at h; cases h; exact hk
    · rw [if_neg hk] at h; exact ih h

theorem findJid_mem {slots : List Job} {jid : Int} {j : Job}
    (h : findJid slots jid = some j) : j ∈ slots := by
  induction slots with
  | nil => cases h
  | cons k rest ih =>
    simp only [findJid] at h
    by_cases hk : k.jid = jid
    · rw [if_pos hk] at h; cases h; exact List.mem_cons_self _ _
    · rw [if_neg hk] at h; exact List.mem_cons_of_mem _ (ih h)

theorem findPid_setStateByPid (slots : List Job) (pid : Int) (st : JState) :
    findPid (setStateByPid slots pid st) pid =
      (findPid slots pid).map (fun j => { j with state := st }) := by
  induction slots with
  | nil => rfl
  | cons k rest ih =>
    simp only [setStateByPid, findPid]
    by_cases hk : k.pid = pid
    · simp [findPid, hk]
    · simp only [if_neg hk, findPid, hk, ite_false, ih]

theorem findPid_isSome_of_fgpid {slots : List Job} {pid : Int}
    (h : fgpid slots = pid) (h0 : pid ≠ 0) : (findPid slots pid).isSome := by
  induction slots with
  | nil => exact absurd h.symm h0
  | cons k rest ih =>
    simp only [fgpid] at h
    simp only [findPid]
    by_cases hk : k.pid = pid
    · simp [hk]
    · rw [if_neg hk]
      by_cases hfg : k.state = .FG
      · rw [if_pos hfg] at h; exact absurd h hk
      · rw [if_neg hfg] at h; exact ih h

theorem fgCount_eq_zero_no_fg {slots : List Job} (h : fgCount slots = 0) :
    ∀ j ∈ slots, j.state ≠ .FG := by
  intro j hj
  have := List.countP_eq_zero.mp h j hj
  simpa using this

theorem fgpid_of_uniform {slots : List Job} {p : Int}
    (h : ∀ j ∈ slots, j.state = .FG → j.pid = p) (hc : fgCount slots ≠ 0) :
    fgpid slots = p := by
  induction slots with
  | nil => simp [fgCount] at hc
  | cons k rest ih =>
    simp only [fgpid]
    by_cases hfg : k.state = .FG
    · rw [if_pos hfg]
      exact h k (List.mem_cons_self _ _) hfg
    · rw [if_neg hfg]
      refine ih (fun j hj => h j (List.mem_cons_of_mem _ hj)) ?_
      simp only [fgCount, List.countP_cons] at hc ⊢
      simpa [hfg] using hc

theorem fgCount_eq_zero_of_fgpid_zero {slots : List Job}
    (h4 : ∀ j ∈ slots, j.state = .FG → j.pid ≠ 0) (h : fgpid slots = 0) :
    fgCount slots = 0 := by
  induction slots with
  | nil => rfl
  | cons k rest ih =>
    simp only [fgpid] at h
    by_cases hfg : k.state = .FG
    · rw [if_pos hfg] at h
      exact absurd h (h4 k (List.mem_cons_self _ _) hfg)
    · rw [if_neg hfg] at h
      have := ih (fun j hj => h4 j (List.mem_cons_of_mem _ hj)) h
      simp only [fgCount, List.countP_cons] at *
      simpa [hfg] using this

theorem getjobpid_some {slots : List Job} {pid : Int} {j : Job}
    (h : getjobpid slots pid = some j) :
    1 ≤ pid ∧ findPid slots pid = some j := by
  unfold getjobpid at h
  split at h
  · cases h
  · exact ⟨by omega, h⟩

theorem getjobjid_some {slots : List Job} {jid : Int} {j : Job}
    (h : getjobjid slots jid = some j) :
    1 ≤ jid ∧ findJid slots jid = some j := by
  unfold getjobjid at h
  split at h
  · cases h
  · exact ⟨by omega, h⟩

/-- Inversion of a successful `execute_fg`: the resulting table is the
input table with the state of the resolved (occupied, non-`UNDEF`) job
set to `FG` through the first `jid`- or `pid`-match. -/
theorem execute_fg_ok_inv {t : JobTable} {argc : Nat} {a0 arg : String}
    {t' : JobTable} {out : String} {kills : List (Int × Int)}
    (h : execute_fg t argc a0 arg = .ok t' out kills) :
    (∃ jid job, 1 ≤ jid ∧ findJid t.slots jid = some job ∧
       job.state ≠ .UNDEF ∧ job.jid = jid ∧
       t' = ⟨setStateByJid t.slots jid .FG, t.nextjid⟩) ∨
    (∃ pid job, 1 ≤ pid ∧ findPid t.slots pid = some job ∧
       job.state ≠ .UNDEF ∧ job.pid = pid ∧
       t' = ⟨setStateByPid t.slots pid .FG, t.nextjid⟩) := by
  simp only [execute_fg] at h
  split at h
  · cases h
  · split at h
    · -- the %jid branch
      split at h
      · cases h
      · rename_i rest hlist hjid
        split at h
        · cases h
        · rename_i job hfound
          split at h
          · cases h
          · rename_i hundef
            obtain ⟨hge, hfind⟩ := getjobjid_some hfound
            injection h with h1 h2 h3
            exact Or.inl ⟨atoiList rest, job, hge, hfind, hundef,
              findJid_jid hfind, h1.symm⟩
    · -- the raw-pid branch
      split at h
      · cases h
      · split at h
        · cases h
        · rename_i job hfound
          split at h
          · cases h
          · rename_i hundef
            obtain ⟨hge, hfind⟩ := getjobpid_some hfound
            injection h with h1 h2 h3
            exact Or.inr ⟨atoi arg, job, hge, hfind, hundef,
              findPid_pid hfind, h1.symm⟩

/-- Inversion of a successful `execute_bg`: the resulting table is the
input table with the state of the resolved job set to `BG` through the
first `jid`- or `pid`-match. -/
theorem execute_bg_ok_inv {t : JobTable} {argc : Nat} {a0 arg : String}
    {t' : JobTable} {out : String} {kills : List (Int × Int)}
    (h : execute_bg t argc a0 arg = .ok t' out kills) :
    (∃ jid job, 1 ≤ jid ∧ findJid t.slots jid = some job ∧ job.jid = jid ∧
       t' = ⟨setStateByJid t.slots jid .BG, t.nextjid⟩) ∨
    (∃ pid job, 1 ≤ pid ∧ findPid t.slots pid = some job ∧ job.pid = pid ∧
       t' = ⟨setStateByPid t.slots pid .BG, t.nextjid⟩) := by
  simp only [execute_bg] at h
  split at h
  · cases h
  · split at h
    · split at h
      · cases h
      · rename_i rest hlist hjid
        split at h
        · cases h
        · rename_i job hfound
          obtain ⟨hge, hfind⟩ := getjobjid_some hfound
          injection h with h1 h2 h3
          exact Or.inl ⟨atoiList rest, job, hge, hfind,
            findJid_jid hfind, h1.symm⟩
    · split at h
      · cases h
      · split at h
        · cases h
        · rename_i job hfound
          obtain ⟨hge, hfind⟩ := getjobpid_some hfound
          injection h with h1 h2 h3
          exact Or.inr ⟨atoi arg, job, hge, hfind,
            findPid_pid hfind, h1.symm⟩

/-- Inversion of a non-crashing `sigchld_event`: the table is unchanged,
or the reaped job's state is set to `ST` through the first `pid`-match,
or the job is deleted. -/
theorem sigchld_event_some_inv {t : JobTable} {pid : Int} {status : WStatus}
    {t' : JobTable} {out : String}
    (h : sigchld_event t pid status = some (t', out)) :
    t' = t ∨ (1 ≤ pid ∧ t' = ⟨setStateByPid t.slots pid .ST, t.nextjid⟩) ∨
      t' = (deletejob t pid).1 := by
  cases status with
  | stopped sig =>
    simp only [sigchld_event] at h
    split at h
    · cases h
    · rename_i job hfound
      obtain ⟨hge, _⟩ := getjobpid_some hfound
      split at h
      · injection h with h1
        injection h1 with h1 h2
        exact Or.inr (Or.inl ⟨hge, h1.symm⟩)
      · injection h with h1
        injection h1 with h1 h2
        exact Or.inl h1.symm
  | signaled sig =>
    simp only [sigchld_event] at h
    split at h
    · cases h
    · injection h with h1
      injection h1 with h1 h2
      exact Or.inr (Or.inr h1.symm)
  | exited code =>
    simp only [sigchld_event] at h
    injection h with h1
    injection h1 with h1 h2
    exact Or.inr (Or.inr h1.symm)

theorem addjob_of_lt {t : JobTable} {pid : Int} (st : JState) (cmd : String)
    (hp : pid < 1) : addjob t pid st cmd = (t, false, "") := by
  simp [addjob, hp]

theorem addjob_fst_of_ge {t : JobTable} {pid : Int} (st : JState)
    (cmd : String) (hp : ¬ pid < 1) :
    (addjob t pid st cmd).1 =
      ⟨(addjobSlots t.slots pid st cmd t.nextjid).1,
       (addjobSlots t.slots pid st cmd t.nextjid).2.1⟩ := by
  simp [addjob, hp]

theorem deletejob_slots_cases (t : JobTable) (pid : Int) :
    (deletejob t pid).1.slots = t.slots ∨
    (deletejob t pid).1.slots = (deletejobSlots t.slots pid).1 := by
  simp only [deletejob]
  split
  · exact Or.inl rfl
  · split
    · exact Or.inr rfl
    · exact Or.inr rfl

theorem mem_deletejob {t : JobTable} {pid : Int} {j' : Job}
    (h : j' ∈ (deletejob t pid).1.slots) : j' ∈ t.slots ∨ j' = emptyJob := by
  rcases deletejob_slots_cases t pid with he | he <;> rw [he] at h
  · exact Or.inl h
  · exact mem_deletejobSlots h

theorem fgCount_deletejob_le (t : JobTable) (pid : Int) :
    fgCount (deletejob t pid).1.slots ≤ fgCount t.slots := by
  rcases deletejob_slots_cases t pid with he | he <;> rw [he]
  exact fgCount_deletejobSlots_le t.slots pid

theorem sigint_handler_fst (t : JobTable) (sig : Int) :
    (sigint_handler t sig).1 = t := by
  simp only [sigint_handler]
  split <;> rfl

/-! ### The foreground invariant (reachable states) -/

/-- Well-formedness of the slots: every foreground slot has a nonzero
pid, and a free slot (`pid == 0`) carries no stale id or state. -/
def SlotsInv (slots : List Job) : Prop :=
  (∀ j ∈ slots, j.state = .FG → j.pid ≠ 0) ∧
  (∀ j ∈ slots, j.pid = 0 → j.jid = 0 ∧ j.state = .UNDEF)

theorem SlotsInv_setStateByPid {slots : List Job} {pid : Int} (st : JState)
    (h : SlotsInv slots) (hp : pid ≠ 0) :
    SlotsInv (setStateByPid slots pid st) := by
  obtain ⟨h4, h5⟩ := h
  constructor
  · intro j' hj' hfg
    rcases mem_setStateByPid hj' with hm | ⟨j, hj, hjp, rfl⟩
    · exact h4 j' hm hfg
    · show j.pid ≠ 0
      rw [hjp]; exact hp
  · intro j' hj' hp0
    rcases mem_setStateByPid hj' with hm | ⟨j, hj, hjp, rfl⟩
    · exact h5 j' hm hp0
    · exact absurd (hjp ▸ hp0) hp

theorem SlotsInv_setStateByJid {slots : List Job} {jid : Int} (st : JState)
    (h : SlotsInv slots) (hj : jid ≠ 0) :
    SlotsInv (setStateByJid slots jid st) := by
  obtain ⟨h4, h5⟩ := h
  have hpid : ∀ j ∈ slots, j.jid = jid → j.pid ≠ 0 := by
    intro j hjmem hjid hp0
    exact hj (hjid ▸ (h5 j hjmem hp0).1)
  constructor
  · intro j' hj' hfg
    rcases mem_setStateByJid hj' with hm | ⟨j, hjm, hjj, rfl⟩
    · exact h4 j' hm hfg
    · exact hpid j hjm hjj
  · intro j' hj' hp0
    rcases mem_setStateByJid hj' with hm | ⟨j, hjm, hjj, rfl⟩
    · exact h5 j' hm hp0
    · exact absurd hp0 (hpid j hjm hjj)

theorem SlotsInv_deletejob {t : JobTable} (pid : Int) (h : SlotsInv t.slots) :
    SlotsInv (deletejob t pid).1.slots := by
  constructor
  · intro j' hj' hfg
    rcases mem_deletejob hj' with hm | rfl
    · exact h.1 j' hm hfg
    · cases hfg
  · intro j' hj' hp0
    rcases mem_deletejob hj' with hm | rfl
    · exact h.2 j' hm hp0
    · exact ⟨rfl, rfl⟩

theorem SlotsInv_addjobSlots {slots : List Job} {pid : Int} (st : JState)
    (cmd : String) (nj : Int) (h : SlotsInv slots) (hp : pid ≠ 0) :
    SlotsInv (addjobSlots slots pid st cmd nj).1 := by
  constructor
  · intro j' hj' hfg
    rcases mem_addjobSlots hj' with hm | rfl
    · exact h.1 j' hm hfg
    · exact hp
  · intro j' hj' hp0
    rcases mem_addjobSlots hj' with hm | rfl
    · exact h.2 j' hm hp0
    · exact absurd hp0 hp

/-- The inductive invariant of the transition system: at most one
foreground slot, none while the main flow sits at the prompt, and while
`eval` waits on a spawned pid every foreground slot carries that pid. -/
def ShellInv (s : ShellState) : Prop :=
  fgCount s.table.slots ≤ 1 ∧ SlotsInv s.table.slots ∧
    (s.mode = .prompt → fgCount s.table.slots = 0) ∧
    (∀ p, s.mode = .waitFG p → ∀ j ∈ s.table.slots, j.state = .FG → j.pid = p)

theorem ShellInv_init : ShellInv ⟨initTable, .prompt⟩ := by
  refine ⟨by decide, ⟨?_, ?_⟩, fun _ => by decide, ?_⟩
  · intro j hj hfg
    have : j = emptyJob := List.eq_of_mem_replicate hj
    subst this; cases hfg
  · intro j hj _
    have : j = emptyJob := List.eq_of_mem_replicate hj
    subst this; exact ⟨rfl, rfl⟩
  · intro p hp
    cases hp

theorem shellInv_intro {slots : List Job} {nj : Int} {m : Mode}
    (h1 : fgCount slots ≤ 1) (h2 : SlotsInv slots)
    (h3 : m = .prompt → fgCount slots = 0)
    (h4 : ∀ p, m = .waitFG p → ∀ j ∈ slots, j.state = .FG → j.pid = p) :
    ShellInv ⟨⟨slots, nj⟩, m⟩ := ⟨h1, h2, h3, h4⟩

theorem shellInv_elim {t : JobTable} {m : Mode} (h : ShellInv ⟨t, m⟩) :
    fgCount t.slots ≤ 1 ∧ SlotsInv t.slots ∧
      (m = .prompt → fgCount t.slots = 0) ∧
      (∀ p, m = .waitFG p → ∀ j ∈ t.slots, j.state = .FG → j.pid = p) := h

theorem ShellInv_step {s s' : ShellState} (hst : Step s s') (hs : ShellInv s) :
    ShellInv s' := by
  cases hst with
  | spawnFG t pid cmd =>
    obtain ⟨hcount, hslots, hprompt, hwait⟩ := shellInv_elim hs
    have hc0 : fgCount t.slots = 0 := hprompt rfl
    by_cases hp : pid < 1
    · rw [addjob_of_lt .FG cmd hp]
      refine shellInv_intro hcount hslots ?_ ?_
      · intro h; cases h
      · intro p hp' j hj hfg
        exact absurd hfg (fgCount_eq_zero_no_fg hc0 j hj)
    · rw [addjob_fst_of_ge .FG cmd hp]
      have hpne : pid ≠ 0 := by omega
      have h5 : ∀ j ∈ t.slots, j.pid = 0 → j.state = .UNDEF :=
        fun j hj h0 => (hslots.2 j hj h0).2
      have hle := fgCount_addjobSlots pid t.nextjid .FG cmd h5
      refine shellInv_intro ?_
        (SlotsInv_addjobSlots .FG cmd t.nextjid hslots hpne) ?_ ?_
      · simp at hle
        omega
      · intro h; cases h
      · intro p hpeq j hj hfg
        cases hpeq
        rcases mem_addjobSlots hj with hm | rfl
        · exact absurd hfg (fgCount_eq_zero_no_fg hc0 j hm)
        · rfl
  | spawnBG t pid cmd =>
    obtain ⟨hcount, hslots, hprompt, hwait⟩ := shellInv_elim hs
    have hc0 : fgCount t.slots = 0 := hprompt rfl
    by_cases hp : pid < 1
    · rw [addjob_of_lt .BG cmd hp]
      refine shellInv_intro hcount hslots (fun _ => hc0) ?_
      intro p hp'; cases hp'
    · rw [addjob_fst_of_ge .BG cmd hp]
      have hpne : pid ≠ 0 := by omega
      have h5 : ∀ j ∈ t.slots, j.pid = 0 → j.state = .UNDEF :=
        fun j hj h0 => (hslots.2 j hj h0).2
      have hle := fgCount_addjobSlots pid t.nextjid .BG cmd h5
      simp only [if_neg (by decide : ¬ (JState.BG = JState.FG))] at hle
      refine shellInv_intro (by omega)
        (SlotsInv_addjobSlots .BG cmd t.nextjid hslots hpne)
        (fun _ => by omega) ?_
      intro p hp'; cases hp'
  | fgBuiltin t argc a0 arg t' out kills hok =>
    obtain ⟨hcount, hslots, hprompt, hwait⟩ := shellInv_elim hs
    have hc0 : fgCount t.slots = 0 := hprompt rfl
    rcases execute_fg_ok_inv hok with
      ⟨jid, job, hge, hfind, hund, hjj, rfl⟩ |
      ⟨pid, job, hge, hfind, hund, hjp, rfl⟩
    · have hjne : jid ≠ 0 := by omega
      have hle := fgCount_setStateByJid_le t.slots jid .FG
      simp at hle
      refine shellInv_intro (by omega) (SlotsInv_setStateByJid .FG hslots hjne)
        ?_ ?_
      · intro h; cases h
      · intro p hp'; cases hp'
    · have hpne : pid ≠ 0 := by omega
      have hle := fgCount_setStateByPid_le t.slots pid .FG
      simp at hle
      refine shellInv_intro (by omega) (SlotsInv_setStateByPid .FG hslots hpne)
        ?_ ?_
      · intro h; cases h
      · intro p hp'; cases hp'
  | bgBuiltin t argc a0 arg t' out kills hok =>
    obtain ⟨hcount, hslots, hprompt, hwait⟩ := shellInv_elim hs
    have hc0 : fgCount t.slots = 0 := hprompt rfl
    rcases execute_bg_ok_inv hok with
      ⟨jid, job, hge, hfind, hjj, rfl⟩ | ⟨pid, job, hge, hfind, hjp, rfl⟩
    · have hjne : jid ≠ 0 := by omega
      have hle := fgCount_setStateByJid_le t.slots jid .BG
      simp only [if_neg (by decide : ¬ (JState.BG = JState.FG))] at hle
      refine shellInv_intro (by omega) (SlotsInv_setStateByJid .BG hslots hjne)
        (fun _ => by omega) ?_
      intro p hp'; cases hp'
    · have hpne : pid ≠ 0 := by omega
      have hle := fgCount_setStateByPid_le t.slots pid .BG
      simp only [if_neg (by decide : ¬ (JState.BG = JState.FG))] at hle
      refine shellInv_intro (by omega) (SlotsInv_setStateByPid .BG hslots hpne)
        (fun _ => by omega) ?_
      intro p hp'; cases hp'
  | wakeFG t pid hne =>
    obtain ⟨hcount, hslots, hprompt, hwait⟩ := shellInv_elim hs
    refine shellInv_intro hcount hslots (fun _ => ?_) ?_
    · by_contra hne0
      exact hne (fgpid_of_uniform (hwait pid rfl) hne0)
    · intro p hp'; cases hp'
  | wakeAny t hz =>
    obtain ⟨hcount, hslots, hprompt, hwait⟩ := shellInv_elim hs
    refine shellInv_intro hcount hslots
      (fun _ => fgCount_eq_zero_of_fgpid_zero hslots.1 hz) ?_
    intro p hp'; cases hp'
  | chld t m pid status t' out hev =>
    obtain ⟨hcount, hslots, hprompt, hwait⟩ := shellInv_elim hs
    rcases sigchld_event_some_inv hev with rfl | ⟨hge, rfl⟩ | rfl
    · exact ⟨hcount, hslots, hprompt, hwait⟩
    · have hpne : pid ≠ 0 := by omega
      have hle := fgCount_setStateByPid_le t.slots pid .ST
      simp only [if_neg (by decide : ¬ (JState.ST = JState.FG))] at hle
      refine shellInv_intro (by omega) (SlotsInv_setStateByPid .ST hslots hpne)
        (fun hm => ?_) (fun p hp' j hj hfg => ?_)
      · have := hprompt hm; omega
      · rcases mem_setStateByPid hj with hmem | ⟨j0, hj0, hj0p, rfl⟩
        · exact hwait p hp' j hmem hfg
        · cases hfg
    · have hle := fgCount_deletejob_le t pid
      refine shellInv_intro (le_trans hle hcount) (SlotsInv_deletejob pid hslots)
        (fun hm => Nat.le_zero.mp (le_trans hle (le_of_eq (hprompt hm))))
        (fun p hp' j hj hfg => ?_)
      rcases mem_deletejob hj with hmem | rfl
      · exact hwait p hp' j hmem hfg
      · cases hfg
  | tstp t m sig =>
    obtain ⟨hcount, hslots, hprompt, hwait⟩ := shellInv_elim hs
    by_cases hz : fgpid t.slots = 0
    · have hfst : (sigtstp_handler t sig).1 = t := by
        simp [sigtstp_handler, hz]
      rw [hfst]
      exact ⟨hcount, hslots, hprompt, hwait⟩
    · have hfst : (sigtstp_handler t sig).1 =
          ⟨setStateByPid t.slots (fgpid t.slots) .ST, t.nextjid⟩ := by
        simp [sigtstp_handler, hz]
      rw [hfst]
      have hle := fgCount_setStateByPid_le t.slots (fgpid t.slots) .ST
      simp only [if_neg (by decide : ¬ (JState.ST = JState.FG))] at hle
      refine shellInv_intro (by omega) (SlotsInv_setStateByPid .ST hslots hz)
        (fun hm => ?_) (fun p hp' j hj hfg => ?_)
      · have := hprompt hm; omega
      · rcases mem_setStateByPid hj with hmem | ⟨j0, hj0, hj0p, rfl⟩
        · exact hwait p hp' j hmem hfg
        · cases hfg
  | intr t m sig =>
    obtain ⟨hcount, hslots, hprompt, hwait⟩ := shellInv_elim hs
    rw [sigint_handler_fst]
    exact ⟨hcount, hslots, hprompt, hwait⟩

theorem ShellInv_reachable {s : ShellState} (h : Reachable s) : ShellInv s := by
  induction h with
  | init => exact ShellInv_init
  | step hr hstep ih => exact ShellInv_step hstep ih

/-! ### Claim theorems -/

/-- C3: in every state reachable by any interleaving of `eval`, the
`fg`/`bg` builtins and the signal handlers (builtins and single handler
reap-iterations as atomic transactions, handlers interleaving freely,
in particular during the two suspend loops), at most one slot of the
job table has state `FG`. -/
theorem C3_at_most_one_foreground (s : ShellState) (h : Reachable s) :
    fgCount s.table.slots ≤ 1 :=
  (ShellInv_reachable h).1

theorem C3_at_most_one_foreground_witness :
    fgCount (addjob initTable 42 .FG "sleep 100").1.slots ≤ 1 :=
  C3_at_most_one_foreground ⟨(addjob initTable 42 .FG "sleep 100").1, .waitFG 42⟩
    (Reachable.step Reachable.init (Step.spawnFG initTable 42 "sleep 100"))

/-- C9: the interrupt handler never modifies the job table — for every
table state the table after `sigint_handler` is the one before it
(every slot's pid, id, state and command line unchanged), and the
handler's only action is forwarding the signal to the foreground job's
negated pid when one exists. -/
theorem C9_sigint_preserves_table (t : JobTable) (sig : Int) :
    (sigint_handler t sig).1 = t ∧
    (sigint_handler t sig).2 =
      (if fgpid t.slots ≠ 0 then [(-(fgpid t.slots), sig)] else []) := by
  constructor
  · exact sigint_handler_fst t sig
  · simp only [sigint_handler]
    split
    · rfl
    · rfl

/-- C1 counter-evidence: on the empty job table, `fg %1` and `bg %1`
(a well-formed job id that matches no job) reach the dereference of the
null pointer returned by `getjobjid` — `pid = target_job->pid` runs
before the null check — instead of printing a job-not-found message. -/
theorem C1_fg_bg_jobid_crash :
    execute_fg initTable 2 "fg" "%1" = .crash ∧
    execute_bg initTable 2 "bg" "%1" = .crash ∧
    getjobjid initTable.slots 1 = none := by decide

/-- C2 counter-evidence: after a failed `execve` the child prints
`<argv0>s: Command not found.` — a stray `s` from the literal on
tsh.c line 287 — rather than the specified `<argv0>: Command not
found.`; the exit status is 0 as specified. -/
theorem C2_command_not_found_text :
    execFailOutput "./nosuch" = "./nosuchs: Command not found.\n" ∧
    execFailOutput "./nosuch" ≠ "./nosuch: Command not found.\n" ∧
    execFailStatus = 0 := by decide

theorem tFill_reachable : ∀ n : Nat, Reachable ⟨tFill n, .prompt⟩
  | 0 => Reachable.init
  | n + 1 =>
    Reachable.step (tFill_reachable n)
      (Step.spawnBG (tFill n) ((n : Int) + 1) "sleep 100 &")

theorem deletejob_found_spec {t : JobTable} {q : Int}
    (h : (deletejob t q).2 = true) :
    deletejob t q = (⟨(deletejobSlots t.slots q).1,
        maxjid (deletejobSlots t.slots q).1 + 1⟩, true) := by
  simp only [deletejob] at h ⊢
  split at h <;> rename_i hq
  · cases h
  · split at h <;> rename_i hfound
    · rw [if_neg hq, if_pos hfound]
    · cases h

/-- C4 (amended): `addjob` on a table with a free slot advances the
next-id counter by one and wraps it back to 1 exactly when it would
exceed `MAXJOBS` (the table's capacity, 16 — not `MAXJID`); and
immediately after any successful deletion the counter strictly exceeds
every id still occupied. -/
theorem C4_nextjid_wrap (t : JobTable) (pid q : Int) (st : JState)
    (cmd : String) (hp : 1 ≤ pid) (hfree : containsPid t.slots 0 = true) :
    ((addjob t pid st cmd).1.nextjid =
        if t.nextjid + 1 > MAXJOBS then 1 else t.nextjid + 1)
  ∧ ((deletejob t q).2 = true →
      ∀ j ∈ (deletejob t q).1.slots, j.jid < (deletejob t q).1.nextjid) := by
  constructor
  · rw [addjob_fst_of_ge st cmd (show ¬ pid < 1 by omega)]
    exact (addjobSlots_free pid t.nextjid st cmd hfree).1
  · intro hdel j hj
    have hspec := deletejob_found_spec hdel
    rw [hspec] at hj ⊢
    exact Int.lt_add_one_iff.mpr (jid_le_maxjid hj)

theorem C4_nextjid_wrap_witness :
    ((addjob initTable 5 .BG "sleep 100 &").1.nextjid =
        if initTable.nextjid + 1 > MAXJOBS then 1
        else initTable.nextjid + 1)
  ∧ ((deletejob initTable 3).2 = true →
      ∀ j ∈ (deletejob initTable 3).1.slots,
        j.jid < (deletejob initTable 3).1.nextjid) :=
  C4_nextjid_wrap initTable 5 3 .BG "sleep 100 &" (by decide) (by decide)

/-- C4 as stated is false on the code: the state reached by sixteen
background registrations is reachable, there the counter (1) does not
exceed the maximum occupied id (16), and the wrap that produced it
happened at `MAXJOBS` although the incremented counter (17) was still
far below `MAXJID`. -/
theorem C4_counterexample :
    Reachable ⟨tFill 16, .prompt⟩
  ∧ ¬ (maxjid (tFill 16).slots < (tFill 16).nextjid)
  ∧ (tFill 15).nextjid + 1 ≤ MAXJID
  ∧ (addBGpid (tFill 15) 16).nextjid = 1 :=
  ⟨tFill_reachable 16, by decide, by decide, by decide⟩

/-- C5: for a pid present in the table, `deletejob` clears exactly that
job's slot, returns 1 and recomputes the counter to one more than the
maximum id among the remaining occupied slots (1 when the table becomes
empty, since `maxjid` of an all-clear table is 0); for an absent pid it
returns 0 and leaves the table unchanged. -/
theorem C5_deletejob_contract (t : JobTable) (pid : Int) (hp : 1 ≤ pid) :
    (containsPid t.slots pid = true →
       (deletejob t pid).2 = true
     ∧ (∃ i j, t.slots.get? i = some j ∧ j.pid = pid ∧
          (deletejob t pid).1.slots = t.slots.set i emptyJob)
     ∧ (deletejob t pid).1.nextjid = maxjid (deletejob t pid).1.slots + 1)
  ∧ (containsPid t.slots pid = false → deletejob t pid = (t, false)) := by
  constructor
  · intro hc
    obtain ⟨i, j, hget, hpid, heq⟩ := deletejobSlots_found hc
    have h2 : (deletejob t pid).2 = true := by
      simp [deletejob, heq, show ¬ pid < 1 by omega]
    have hspec := deletejob_found_spec h2
    refine ⟨h2, ⟨i, j, hget, hpid, ?_⟩, ?_⟩
    · rw [hspec]
      simp [heq]
    · rw [hspec]
  · intro hc
    have hnf := deletejobSlots_not_found hc
    simp only [deletejob, if_neg (show ¬ pid < 1 by omega), hnf]
    rfl

/-- A one-job table used to instantiate the contracts. -/
def tOne : JobTable := (addjob initTable 5 .BG "sleep 100 &").1

theorem C5_deletejob_contract_witness :
    (containsPid tOne.slots 5 = true →
       (deletejob tOne 5).2 = true
     ∧ (∃ i j, tOne.slots.get? i = some j ∧ j.pid = 5 ∧
          (deletejob tOne 5).1.slots = tOne.slots.set i emptyJob)
     ∧ (deletejob tOne 5).1.nextjid = maxjid (deletejob tOne 5).1.slots + 1)
  ∧ (containsPid tOne.slots 5 = false → deletejob tOne 5 = (tOne, false)) :=
  C5_deletejob_contract tOne 5 (by decide)

/-- C6: for a reaped status of a pid registered in the table, the
child-status handler prints exactly the
`Job [<id>] (<pid>) terminated by signal <n>` line and deletes the job
when the child was terminated by a signal, and deletes the job with no
output when the child exited normally. -/
theorem C6_sigchld_terminate_exit (t : JobTable) (pid sig code : Int)
    (job : Job) (h : getjobpid t.slots pid = some job) :
    sigchld_event t pid (.signaled sig) =
      some ((deletejob t pid).1,
        "Job [" ++ sio_putl_str job.jid ++ "] (" ++ sio_putl_str job.pid ++
          ") terminated by signal " ++ sio_putl_str sig ++ "\n")
  ∧ sigchld_event t pid (.exited code) = some ((deletejob t pid).1, "") := by
  constructor
  · simp only [sigchld_event, h]
  · rfl

theorem C6_sigchld_terminate_exit_witness :
    sigchld_event tOne 5 (.signaled 2) =
      some ((deletejob tOne 5).1,
        "Job [" ++ sio_putl_str (Job.mk 5 1 .BG "sleep 100 &").jid ++ "] (" ++
          sio_putl_str (Job.mk 5 1 .BG "sleep 100 &").pid ++
          ") terminated by signal " ++ sio_putl_str 2 ++ "\n")
  ∧ sigchld_event tOne 5 (.exited 0) = some ((deletejob tOne 5).1, "") :=
  C6_sigchld_terminate_exit tOne 5 2 0 (Job.mk 5 1 .BG "sleep 100 &")
    (by decide)

/-- C7: the child-status handler's stop branch is a no-op (no output,
no state change) on a job already `ST`; hence a terminal-stop (which
prints the stop line and sets `ST`) followed by reaping a second stop
of the same job prints the notification exactly once. -/
theorem C7_no_duplicate_stop (t : JobTable) (pid sig sig2 : Int)
    (h1 : 1 ≤ pid) (h2 : fgpid t.slots = pid) :
    (∀ job, getjobpid t.slots pid = some job → job.state = .ST →
        sigchld_event t pid (.stopped sig2) = some (t, ""))
  ∧ (sigtstp_handler t sig).2.1 =
      "Job [" ++ sio_putl_str (pid2jid t.slots pid) ++ "] (" ++
        sio_putl_str pid ++ ") stopped by signal " ++ sio_putl_str sig ++ "\n"
  ∧ sigchld_event (sigtstp_handler t sig).1 pid (.stopped sig2) =
      some ((sigtstp_handler t sig).1, "") := by
  have hne : pid ≠ 0 := by omega
  have hfst : (sigtstp_handler t sig).1 =
      ⟨setStateByPid t.slots pid .ST, t.nextjid⟩ := by
    simp [sigtstp_handler, h2, hne]
  refine ⟨?_, ?_, ?_⟩
  · intro job hf hst
    simp [sigchld_event, hf, hst]
  · simp [sigtstp_handler, h2, hne]
  · obtain ⟨j0, hj0⟩ := Option.isSome_iff_exists.mp
      (findPid_isSome_of_fgpid h2 hne)
    have hfind : findPid (setStateByPid t.slots pid .ST) pid =
        some { j0 with state := .ST } := by
      rw [findPid_setStateByPid, hj0]; rfl
    have hget : getjobpid (setStateByPid t.slots pid .ST) pid =
        some { j0 with state := .ST } := by
      simp only [getjobpid, if_neg (show ¬ pid < 1 by omega)]
      exact hfind
    rw [hfst]
    simp [sigchld_event, hget]

/-- A table whose single job is in the foreground. -/
def tFG : JobTable := (addjob initTable 5 .FG "sleep 100").1

theorem C7_no_duplicate_stop_witness :
    (∀ job, getjobpid tFG.slots 5 = some job → job.state = .ST →
        sigchld_event tFG 5 (.stopped 20) = some (tFG, ""))
  ∧ (sigtstp_handler tFG 20).2.1 =
      "Job [" ++ sio_putl_str (pid2jid tFG.slots 5) ++ "] (" ++
        sio_putl_str 5 ++ ") stopped by signal " ++ sio_putl_str 20 ++ "\n"
  ∧ sigchld_event (sigtstp_handler tFG 20).1 5 (.stopped 20) =
      some ((sigtstp_handler tFG 20).1, "") :=
  C7_no_duplicate_stop tFG 5 20 20 (by decide) (by decide)

/-- C8: `addjob` with a positive pid on a table with no free slot
returns 0, prints the capacity warning, and leaves every slot and the
next-id counter unchanged (no eviction). -/
theorem C8_addjob_full (t : JobTable) (pid : Int) (st : JState) (cmd : String)
    (hp : 1 ≤ pid) (hfull : ∀ j ∈ t.slots, j.pid ≠ 0) :
    addjob t pid st cmd = (t, false, "Tried to create too many jobs\n") := by
  have hfree := @addjobSlots_full t.slots pid t.nextjid st cmd hfull
  simp only [addjob, if_neg (show ¬ pid < 1 by omega), hfree]
  rfl

theorem C8_addjob_full_witness :
    addjob (tFill 16) 999 .BG "sleep 200 &" =
      ((tFill 16), false, "Tried to create too many jobs\n") :=
  C8_addjob_full (tFill 16) 999 .BG "sleep 200 &" (by decide) (by decide)

/-- C10: a full table is reachable; a further child is admitted
untracked (`addjob` returns 0); reaping that untracked pid with a
stopped or signaled status dereferences the null result of the pid
lookup (modelled as `none`), while the normal-exit branch, which never
dereferences the pointer, is safe. -/
theorem C10_untracked_reap_null_deref :
    Reachable ⟨tFill 16, .prompt⟩
  ∧ containsPid (tFill 16).slots 999 = false
  ∧ (addjob (tFill 16) 999 .BG "sleep 200 &").2.1 = false
  ∧ sigchld_event (tFill 16) 999 (.stopped 20) = none
  ∧ sigchld_event (tFill 16) 999 (.signaled 2) = none
  ∧ sigchld_event (tFill 16) 999 (.exited 0) = some (tFill 16, "") :=
  ⟨tFill_reachable 16, by decide, by decide, by decide, by decide, by decide⟩
